import Mathlib

set_option maxRecDepth 8000

/-!
Verification development for the Talnt resume formatter
(`format_resume.py`).  The Python functions `simple_parse_resume`,
`validate_and_clean_data` and `skill_count_in_text` are shallowly embedded
below; regular expressions are translated into explicit scanning functions
that reproduce the leftmost / greedy / lazy behaviour of Python's `re`
module on the concrete patterns appearing in the source.
-/

namespace Talnt

/-! Character predicates and Python-style string primitives. -/

/-- Python regex whitespace class over the ASCII range. -/
def pyWs (c : Char) : Bool :=
  c = ' ' || c = '\t' || c = '\n' || c = '\r' || c = '\x0b' || c = '\x0c'

/-- Drop leading characters satisfying a predicate (Python `lstrip`). -/
def lstripP (p : Char → Bool) : List Char → List Char
  | [] => []
  | c :: cs => if p c then lstripP p cs else c :: cs

/-- Python `rstrip` with an arbitrary character predicate. -/
def rstripP (p : Char → Bool) (cs : List Char) : List Char :=
  (lstripP p cs.reverse).reverse

/-- Python `str.strip()` on a character list. -/
def stripList (cs : List Char) : List Char :=
  rstripP pyWs (lstripP pyWs cs)

/-- Python `str.strip()`. -/
def pyStrip (s : String) : String := ⟨stripList s.data⟩

/-- Python `str.rstrip(chars)` for a single strip character. -/
def pyRstripChar (c : Char) (s : String) : String := ⟨rstripP (· = c) s.data⟩

/-- Python substring test `needle in hay` on character lists. -/
def subInList (needle : List Char) : List Char → Bool
  | [] => needle.isEmpty
  | c :: cs => needle.isPrefixOf (c :: cs) || subInList needle cs

/-- Python substring test `needle in hay`. -/
def subIn (needle hay : String) : Bool := subInList needle.data hay.data

/-- Lowercase a string (ASCII, matching Python on the source's inputs). -/
def lowerStr (s : String) : String := ⟨s.data.map Char.toLower⟩

/-- Split a character list on a separator character, keeping empty pieces
(Python `str.split(sep)`). -/
def splitOnChar (sep : Char) : List Char → List (List Char)
  | [] => [[]]
  | c :: cs =>
    let r := splitOnChar sep cs
    if c = sep then [] :: r
    else match r with
      | [] => [[c]]
      | piece :: rest => (c :: piece) :: rest

/-- Python `text.split(sep)` returning strings. -/
def pySplit (sep : Char) (s : String) : List String :=
  (splitOnChar sep s.data).map fun l => ⟨l⟩

/-- ASCII lowercase letter test (`[a-z]`, no IGNORECASE). -/
def azLower (c : Char) : Bool := 'a' ≤ c && c ≤ 'z'

/-- ASCII uppercase letter test. -/
def azUpper (c : Char) : Bool := 'A' ≤ c && c ≤ 'Z'

/-- ASCII letter test (`[A-Za-z]`). -/
def azLetter (c : Char) : Bool := azLower c || azUpper c

/-- Character class `[a-z]` under an optional IGNORECASE flag. -/
def azChar (ci : Bool) (c : Char) : Bool := azLower c || (ci && azUpper c)

/-- Word character `\w` over the ASCII range. -/
def wordChar (c : Char) : Bool := azLetter c || c.isDigit || c = '_'

/-- Match of one regex literal character against an input character,
optionally case-insensitively. -/
def chEq (ci : Bool) (p c : Char) : Bool :=
  c = p || (ci && c.toLower = p.toLower)

/-- Match a literal regex word at the head of the input, returning the rest. -/
def litAt (ci : Bool) : List Char → List Char → Option (List Char)
  | [], cs => some cs
  | _ :: _, [] => none
  | p :: ps, c :: cs => if chEq ci p c then litAt ci ps cs else none

/-- First alternative of a list of literals matching at the input head
(regex alternation order). -/
def altLit (ci : Bool) : List (List Char) → List Char → Option (List Char)
  | [], _ => none
  | p :: ps, cs =>
    match litAt ci p cs with
    | some r => some r
    | none => altLit ci ps cs

/-- Python `s.startswith(pre)` (kernel-reducible prefix test). -/
def pyStarts (s pre : String) : Bool := pre.data.isPrefixOf s.data

/-- Python `s.endswith(suf)` (kernel-reducible suffix test). -/
def pyEnds (s suf : String) : Bool := suf.data.isSuffixOf s.data

/-- Python `sep.join(ls)` (kernel-reducible join). -/
def joinSep (sep : String) (ls : List String) : String :=
  ⟨List.intercalate sep.data (ls.map String.data)⟩

/-- Python `str.isupper()`: at least one cased character and no lowercase
one (ASCII range). -/
def pyIsUpper (cs : List Char) : Bool :=
  cs.any azLetter && cs.all fun c => !azLower c

/-! The date-range pattern of `simple_parse_resume` (source line 144):

`(?:(?:Jan|...|Dec)[a-z]*\.?\s+)?\d{4}\s*[-–—to\s]+\s*`
`(?:Present|present|Current|current|(?:Jan|...|Dec)[a-z]*\.?\s*)?\d{0,4}`

Almost every use passes `re.IGNORECASE`; the single call at source line 448
does not, so the whole engine is parameterised by the flag `ci`.  Since
`\s` is itself part of the separator class and everything after the
separator run is optional, the pattern has no observable backtracking: a
match at a position is the month prefix (if it parses), four digits, a
nonempty run of separator-class characters, a greedy optional right
endpoint and up to four digits. -/

/-- The three-letter month names of the date pattern. -/
def monthNames : List (List Char) :=
  ["Jan", "Feb", "Mar", "Apr", "May", "Jun",
   "Jul", "Aug", "Sep", "Oct", "Nov", "Dec"].map String.data

/-- Match one month name at the head of the input. -/
def monthAt (ci : Bool) (cs : List Char) : Option (List Char) :=
  altLit ci monthNames cs

/-- The optional month prefix chunk `(?:Jan|...|Dec)[a-z]*\.?\s+` of the
date pattern.  The trailing `\s+` is mandatory; backtracking over `\.?`
or `[a-z]*` can never rescue a failure because letters and the dot are
not whitespace. -/
def monthChunk (ci : Bool) (cs : List Char) : Option (List Char) := do
  let r1 ← monthAt ci cs
  let r2 := r1.dropWhile (azChar ci)
  let r3 := match r2 with
    | '.' :: r => r
    | r => r
  match r3 with
  | c :: rest => if pyWs c then some (rest.dropWhile pyWs) else none
  | [] => none

/-- Exactly four consecutive digits (`\d{4}`). -/
def exact4Digits : List Char → Option (List Char)
  | a :: b :: c :: d :: rest =>
    if a.isDigit && b.isDigit && c.isDigit && d.isDigit then some rest else none
  | _ => none

/-- The separator character class `[-–—to\s]` of the date pattern (with
`t`/`o` case-folded under IGNORECASE). -/
def dateSepChar (ci : Bool) (c : Char) : Bool :=
  c = '-' || c = '–' || c = '—' || c = 't' || c = 'o' ||
    (ci && (c = 'T' || c = 'O')) || pyWs c

/-- Greedy optional right endpoint
`(?:Present|present|Current|current|(?:Jan|...|Dec)[a-z]*\.?\s*)?`. -/
def rightEndpoint (ci : Bool) (cs : List Char) : List Char :=
  match altLit ci
      ["Present".data, "present".data, "Current".data, "current".data] cs with
  | some r => r
  | none =>
    match monthAt ci cs with
    | some r1 =>
      let r2 := r1.dropWhile (azChar ci)
      let r3 := match r2 with
        | '.' :: r => r
        | r => r
      r3.dropWhile pyWs
    | none => cs

/-- Greedily drop up to `n` digits (`\d{0,4}` with `n = 4`). -/
def dropDigitsUpTo : Nat → List Char → List Char
  | 0, cs => cs
  | _ + 1, [] => []
  | n + 1, c :: cs => if c.isDigit then dropDigitsUpTo n cs else c :: cs

/-- Everything after the four digits: a nonempty separator-class run
(`\s*[-–—to\s]+\s*` collapses to one nonempty run since `\s` is in the
class), the optional right endpoint, then up to four digits. -/
def dateTail (ci : Bool) : List Char → Option (List Char)
  | [] => none
  | c :: rest =>
    if dateSepChar ci c then
      some (dropDigitsUpTo 4 (rightEndpoint ci (rest.dropWhile (dateSepChar ci))))
    else none

/-- Try the date pattern at the current position, returning the rest of
the input after the match.  The greedy optional month prefix is tried
first, as the regex engine does. -/
def dateTryAt (ci : Bool) (cs : List Char) : Option (List Char) :=
  let withPre : Option (List Char) := do
    let r1 ← monthChunk ci cs
    let r2 ← exact4Digits r1
    dateTail ci r2
  match withPre with
  | some r => some r
  | none => do
    let r1 ← exact4Digits cs
    dateTail ci r1

/-- Leftmost search for the date pattern: returns the start index and the
match length. -/
def dateSearchAux (ci : Bool) (idx : Nat) : List Char → Option (Nat × Nat)
  | [] => none
  | c :: cs =>
    match dateTryAt ci (c :: cs) with
    | some rest => some (idx, (c :: cs).length - rest.length)
    | none => dateSearchAux ci (idx + 1) cs

/-- Does `re.search(date_pattern, s, flags)` find a match? -/
def hasDateMatch (ci : Bool) (s : String) : Bool :=
  (dateSearchAux ci 0 s.data).isSome

/-- The `.group(0)` text of the leftmost date-pattern match (empty string
when there is no match). -/
def dateGroup0 (ci : Bool) (s : String) : String :=
  match dateSearchAux ci 0 s.data with
  | some (i, n) => ⟨(s.data.drop i).take n⟩
  | none => ""

/-- Fueled worker for `re.sub(date_pattern, '', s)`: scan left to right,
deleting every non-overlapping match.  A match always spans at least five
characters, so fuel equal to the input length suffices. -/
def dateSubAux (ci : Bool) : Nat → List Char → List Char
  | _, [] => []
  | 0, cs => cs
  | n + 1, c :: cs =>
    match dateTryAt ci (c :: cs) with
    | some rest => dateSubAux ci n rest
    | none => c :: dateSubAux ci n cs

/-- Python `re.sub(date_pattern, '', s, flags)`. -/
def dateSub (ci : Bool) (s : String) : String :=
  ⟨dateSubAux ci s.data.length s.data⟩

/-! Contact patterns (source lines 128-129):
email `[a-zA-Z0-9._%+-]+@[a-zA-Z0-9.-]+\.[a-zA-Z]{2,}` and
phone `[\+\(]?[1-9][0-9 .\-\(\)]{8,}[0-9]`, searched without flags. -/

/-- Character class of the email local part. -/
def emailLocalChar (c : Char) : Bool :=
  azLetter c || c.isDigit || c = '.' || c = '_' || c = '%' || c = '+' || c = '-'

/-- Character class of the email domain part. -/
def emailDomainChar (c : Char) : Bool :=
  azLetter c || c.isDigit || c = '.' || c = '-'

/-- Backtracking of `[a-zA-Z0-9.-]+\.[a-zA-Z]{2,}` over the suffix `S`
after the `@`: the one-or-more domain run is shortened from its maximal
length until the next character is a dot followed by at least two ASCII
letters; the letter run is then consumed greedily.  Returns the matched
length within `S`. -/
def emailDomAux (S : List Char) : Nat → Option Nat
  | 0 => none
  | kk + 1 =>
    let letters := ((S.drop (kk + 2)).takeWhile azLetter).length
    if S.get? (kk + 1) = some '.' && 2 ≤ letters
    then some (kk + 2 + letters)
    else emailDomAux S kk

/-- Try the email pattern at the current position, returning the length
of the match. -/
def emailTryAt (cs : List Char) : Option Nat :=
  let l := (cs.takeWhile emailLocalChar).length
  if l = 0 then none
  else
    match cs.drop l with
    | '@' :: S =>
      match emailDomAux S ((S.takeWhile emailDomainChar).length - 1) with
      | some d => some (l + 1 + d)
      | none => none
    | _ => none

/-- Character class `[0-9 .\-\(\)]` of the phone pattern body. -/
def phoneClass (c : Char) : Bool :=
  c.isDigit || c = ' ' || c = '.' || c = '-' || c = '(' || c = ')'

/-- Backtracking of `[0-9 .\-\(\)]{8,}[0-9]` over the class run `R`: the
repetition is shortened from its maximal length (but not below eight)
until the next character is a digit.  Returns the chosen repetition
length. -/
def phoneKAux (R : List Char) : Nat → Option Nat
  | 0 => none
  | kk + 1 =>
    if 8 ≤ kk + 1 && (match R.get? (kk + 1) with | some c => c.isDigit | none => false)
    then some (kk + 1)
    else phoneKAux R kk

/-- Try the phone pattern at the current position, returning the length
of the match.  The optional leading `+`/`(` is greedy; dropping it could
only help if the same character were also a nonzero digit, which is
impossible, so a single pass suffices. -/
def phoneTryAt (cs : List Char) : Option Nat :=
  let (pre, body) :=
    match cs with
    | c :: rest => if c = '+' || c = '(' then (1, rest) else (0, cs)
    | [] => (0, cs)
  match body with
  | d :: rest2 =>
    if '1' ≤ d && d ≤ '9' then
      let R := rest2.takeWhile phoneClass
      match phoneKAux R (R.length - 1) with
      | some k => some (pre + 1 + k + 1)
      | none => none
    else none
  | [] => none

/-- Leftmost search scaffold: first position where `tryAt` matches,
returning start index and match length. -/
def searchAux (tryAt : List Char → Option Nat) (idx : Nat) :
    List Char → Option (Nat × Nat)
  | [] =>
    match tryAt [] with
    | some n => some (idx, n)
    | none => none
  | c :: cs =>
    match tryAt (c :: cs) with
    | some n => some (idx, n)
    | none => searchAux tryAt (idx + 1) cs

/-- The text of the leftmost email match in a line, if any. -/
def emailFind (s : String) : Option String :=
  match searchAux emailTryAt 0 s.data with
  | some (i, n) => some ⟨(s.data.drop i).take n⟩
  | none => none

/-- The text of the leftmost phone match in a line, if any. -/
def phoneFind (s : String) : Option String :=
  match searchAux phoneTryAt 0 s.data with
  | some (i, n) => some ⟨(s.data.drop i).take n⟩
  | none => none

/-! Name extraction heuristics (source lines 110-124). -/

/-- Words that disqualify a line from being the candidate name. -/
def skipPatterns : List String :=
  ["resume", "cv", "page", "professional", "summary", "email", "@", "phone",
   "scheduler", "manager", "engineer", "director", "specialist"]

/-- Python `re.match(r'^\d+\s*[A-Za-z]', line)`: leading digits, optional
whitespace, then a letter. -/
def looksLikeAddress (s : String) : Bool :=
  let ds := s.data.takeWhile Char.isDigit
  ds.length ≥ 1 &&
    (match (s.data.drop ds.length).dropWhile pyWs with
     | c :: _ => azLetter c
     | [] => false)

/-- One position of the pattern `,\s*[A-Z]{2}\s*\d{5}`. -/
def cityStZipAt (cs : List Char) : Bool :=
  match cs with
  | ',' :: r =>
    (match r.dropWhile pyWs with
     | a :: b :: r2 =>
       azUpper a && azUpper b &&
         (let r3 := r2.dropWhile pyWs
          r3.length ≥ 5 && (r3.take 5).all Char.isDigit)
     | _ => false)
  | _ => false

/-- Existence of a match of a position predicate anywhere in the input. -/
def scanAny (p : List Char → Bool) : List Char → Bool
  | [] => p []
  | c :: cs => p (c :: cs) || scanAny p cs

/-- Python `re.search(r',\s*[A-Z]{2}\s*\d{5}|^\(\d{3}\)', line)`. -/
def looksLikeContact (s : String) : Bool :=
  scanAny cityStZipAt s.data ||
    (match s.data with
     | '(' :: a :: b :: c :: ')' :: _ => a.isDigit && b.isDigit && c.isDigit
     | _ => false)

/-- The name-extraction loop over the first ten raw lines. -/
def findName : List String → String
  | [] => ""
  | raw :: rest =>
    let line := pyStrip raw
    if line ≠ "" && line.length < 60 && line.length > 3 &&
        !(skipPatterns.any fun p => subIn p (lowerStr line)) &&
        !looksLikeAddress line && !looksLikeContact line
    then line
    else findName rest

/-! Text cleanup helpers shared by the zone parsers. -/

/-- Does a character list start with the given character? -/
def headIs (c : Char) : List Char → Bool
  | [] => false
  | x :: _ => x = c

/-- Python `re.sub(r'\s+', ' ', s)`: collapse every whitespace run to a
single space. -/
def collapseWsAux (prevWs : Bool) : List Char → List Char
  | [] => []
  | c :: cs =>
    if pyWs c then
      if prevWs then collapseWsAux true cs else ' ' :: collapseWsAux true cs
    else c :: collapseWsAux false cs

/-- Collapse whitespace runs to single spaces. -/
def collapseWs (cs : List Char) : List Char := collapseWsAux false cs

/-- Fueled worker for `re.sub(r'[•\-\*]\s*', '', s)`: every bullet
character plus the following whitespace run is deleted; scanning resumes
after each match.  Every step consumes at least one character, so fuel
equal to the input length suffices. -/
def stripBulletsAux : Nat → List Char → List Char
  | _, [] => []
  | 0, cs => cs
  | n + 1, c :: cs =>
    if c = '•' || c = '-' || c = '*'
    then stripBulletsAux n (cs.dropWhile pyWs)
    else c :: stripBulletsAux n cs

/-- Python `re.sub(r'[•\-\*]\s*', '', s)`. -/
def stripBulletsAll (cs : List Char) : List Char :=
  stripBulletsAux cs.length cs

/-- Fueled worker for `re.sub(r'\s*\n\s*', ', ', s)`: a whitespace run
containing a newline becomes a comma-space; other runs are untouched. -/
def nlRunsToCommaAux : Nat → List Char → List Char
  | _, [] => []
  | 0, cs => cs
  | n + 1, c :: cs =>
    if pyWs c then
      let run := c :: cs.takeWhile pyWs
      (if run.contains '\n' then ", ".data else run) ++
        nlRunsToCommaAux n (cs.dropWhile pyWs)
    else c :: nlRunsToCommaAux n cs

/-- Python `re.sub(r'\s*\n\s*', ', ', s)`. -/
def nlRunsToComma (cs : List Char) : List Char :=
  nlRunsToCommaAux cs.length cs

/-- Fueled worker for `re.sub(r',\s*,', ',', s)`: one comma replaces a
comma-whitespace-comma triple; scanning resumes after the match. -/
def collapseCommasAux : Nat → List Char → List Char
  | _, [] => []
  | 0, cs => cs
  | n + 1, c :: cs =>
    if c = ',' && cs.get? (cs.takeWhile pyWs).length = some ','
    then ',' :: collapseCommasAux n (cs.drop ((cs.takeWhile pyWs).length + 1))
    else c :: collapseCommasAux n cs

/-- Python `re.sub(r',\s*,', ',', s)`. -/
def collapseCommas (cs : List Char) : List Char :=
  collapseCommasAux cs.length cs

/-! Section segmentation.  Every section regex has the shape
`HEADER \s*\n+ (.*?) (?=BOUNDARY)` (with `DOTALL | IGNORECASE`), searched
leftmost over the whole text.  `\s*\n+` deterministically consumes the
whitespace run up to and including its last newline; the lazy capture
then extends to the first position where the boundary lookahead holds.
If no boundary position exists, the engine backtracks `\n+` to an earlier
newline of the same run; the only new candidate boundary position is the
last newline itself (every boundary begins with a literal `\n`, and the
alternation after `\n\s*` is evaluated at the end of the same whitespace
run for every start inside the run), which yields an all-whitespace
capture between the last two newlines of the run. -/

/-- Skip a whitespace run (`\s*` in front of a non-whitespace literal). -/
def dropWsL (cs : List Char) : List Char := cs.dropWhile pyWs

/-- Lazy capture scan: the length of the shortest prefix after which the
boundary predicate holds on the remaining suffix. -/
def capLen (bnd : List Char → Bool) : List Char → Option Nat
  | [] => if bnd [] then some 0 else none
  | c :: t => if bnd (c :: t) then some 0 else (capLen bnd t).map (· + 1)

/-- Match continuation `\s*\n+(.*?)(?=bnd)` after a section header,
returning the captured group. -/
def sectionAfterHeader (bnd : List Char → Bool) (rest : List Char) :
    Option (List Char) :=
  let run := rest.takeWhile pyWs
  let upto := rstripP (fun c => c ≠ '\n') run
  if upto.isEmpty then none
  else
    let p0 := rest.drop upto.length
    match capLen bnd p0 with
    | some q => some (p0.take q)
    | none =>
      let upto2 := rstripP (fun c => c ≠ '\n') upto.dropLast
      if !upto2.isEmpty && bnd (rest.drop (upto.length - 1))
      then some ((run.drop upto2.length).take (upto.length - 1 - upto2.length))
      else none

/-- Match continuation `[^\n]*\n+(.*?)(?=bnd)` (third summary pattern). -/
def lineAfterHeader (bnd : List Char → Bool) (rest : List Char) :
    Option (List Char) :=
  let afterLine := rest.dropWhile (fun c => c ≠ '\n')
  let run := afterLine.takeWhile (· = '\n')
  if run.isEmpty then none
  else
    let p0 := afterLine.drop run.length
    match capLen bnd p0 with
    | some q => some (p0.take q)
    | none =>
      if run.length ≥ 2 && bnd (afterLine.drop (run.length - 1))
      then some [] else none

/-- Try the continuation on each header-alternative rest, in regex
alternation order. -/
def tryCands (after : List Char → Option (List Char)) :
    List (List Char) → Option (List Char)
  | [] => none
  | r :: rs =>
    match after r with
    | some cap => some cap
    | none => tryCands after rs

/-- Leftmost search of a full section pattern over the text. -/
def sectionScan (hdr : List Char → List (List Char))
    (after : List Char → Option (List Char)) : List Char → Option (List Char)
  | [] => none
  | c :: cs =>
    match tryCands after (hdr (c :: cs)) with
    | some cap => some cap
    | none => sectionScan hdr after cs

/-- Case-insensitive literal, as used by every section pattern. -/
def lit (w : String) (cs : List Char) : Option (List Char) := litAt true w.data cs

/-- One-or-more whitespace (`\s+`) between two literal words. -/
def ws1 : List Char → Option (List Char)
  | [] => none
  | c :: r => if pyWs c then some (r.dropWhile pyWs) else none

/-- Two literal words joined by `\s+`. -/
def lit2 (a b : String) (cs : List Char) : Option (List Char) := do
  let r1 ← lit a cs
  let r2 ← ws1 r1
  lit b r2

/-- View an optional header rest as a candidate list. -/
def optList : Option (List Char) → List (List Char)
  | some r => [r]
  | none => []

/-- Boolean test for one of several literal alternatives. -/
def anyLit (ws : List String) (cs : List Char) : Bool :=
  ws.any fun w => (lit w cs).isSome

/-- Boolean test for a two-word literal alternative. -/
def lit2At (a b : String) (cs : List Char) : Bool := (lit2 a b cs).isSome

/-- `\w+` (one or more word characters, consumed greedily). -/
def wordPlus : List Char → Option (List Char)
  | [] => none
  | c :: r => if wordChar c then some (r.dropWhile wordChar) else none

/-! The three summary patterns (source lines 147-152). -/

/-- Header `PROFESSIONAL\s+SUMMARY|SUMMARY|PROFILE|OBJECTIVE`. -/
def hdrSummary1 (cs : List Char) : List (List Char) :=
  optList (lit2 "PROFESSIONAL" "SUMMARY" cs <|> lit "SUMMARY" cs <|>
    lit "PROFILE" cs <|> lit "OBJECTIVE" cs)

/-- Boundary
`\n\s*(?:TECHNICAL|SKILLS|EDUCATION|EXPERIENCE|EMPLOYMENT|WORK|CORE|PROFESSIONAL\s+EXPERIENCE|SELECTED)`. -/
def bndSummary1 : List Char → Bool
  | '\n' :: t =>
    let u := dropWsL t
    anyLit ["TECHNICAL", "SKILLS", "EDUCATION", "EXPERIENCE", "EMPLOYMENT",
      "WORK", "CORE", "SELECTED"] u || lit2At "PROFESSIONAL" "EXPERIENCE" u
  | _ => false

/-- Header `PROFESSIONAL\s+SUMMARY|SUMMARY` of the second summary pattern. -/
def hdrSummary2 (cs : List Char) : List (List Char) :=
  optList (lit2 "PROFESSIONAL" "SUMMARY" cs <|> lit "SUMMARY" cs)

/-- Boundary `\n[A-Z][a-z]+\s+(?:Jan|...|Dec)` (under IGNORECASE both
letter classes cover any ASCII letter). -/
def bndSummary2 : List Char → Bool
  | '\n' :: c :: t =>
    azLetter c &&
      (let la := (t.takeWhile azLetter).length
       decide (1 ≤ la) &&
         (match ws1 (t.drop la) with
          | some r2 => (monthAt true r2).isSome
          | none => false))
  | _ => false

/-- The `SENIOR\s+\w+\s+\w+\s+\w+` header alternative. -/
def seniorSeq (cs : List Char) : Option (List Char) := do
  let r1 ← lit "SENIOR" cs
  let r2 ← ws1 r1
  let r3 ← wordPlus r2
  let r4 ← ws1 r3
  let r5 ← wordPlus r4
  let r6 ← ws1 r5
  wordPlus r6

/-- Header of the third summary pattern (job-title headline). -/
def hdrSummary3 (cs : List Char) : List (List Char) :=
  optList (lit2 "VICE" "PRESIDENT" cs <|> lit "DIRECTOR" cs <|>
    lit "MANAGER" cs <|> lit "EXECUTIVE" cs <|> lit "ENGINEER" cs <|>
    lit "SPECIALIST" cs <|> lit "CONSULTANT" cs <|> lit "ANALYST" cs <|>
    seniorSeq cs)

/-- Boundary of the third summary pattern. -/
def bndSummary3 : List Char → Bool
  | '\n' :: t =>
    let u := dropWsL t
    lit2At "CORE" "COMPETENCIES" u || anyLit ["SKILLS", "TECHNICAL"] u ||
      lit2At "AREAS" "OF" u || lit2At "PROFESSIONAL" "EXPERIENCE" u ||
      anyLit ["EXPERIENCE:", "EMPLOYMENT"] u
  | _ => false

/-- The ordered summary patterns, each returning the captured zone. -/
def summaryPatterns : List (List Char → Option (List Char)) :=
  [sectionScan hdrSummary1 (sectionAfterHeader bndSummary1),
   sectionScan hdrSummary2 (sectionAfterHeader bndSummary2),
   sectionScan hdrSummary3 (lineAfterHeader bndSummary3)]

/-- Summary zone cleanup (source lines 157-165): strip, drop bulleted
lines, join with single spaces, collapse whitespace. -/
def cleanSummaryZone (zone : List Char) : String :=
  let ls := (splitOnChar '\n' (stripList zone)).map stripList
  let kept := ls.filter fun l => !l.isEmpty && !headIs '•' l && !headIs '-' l
  ⟨collapseWs (List.intercalate " ".data kept)⟩

/-- The summary pattern loop: the first pattern whose cleaned capture
exceeds 50 characters supplies the summary (source lines 154-168). -/
def trySummary : List (List Char → Option (List Char)) → List Char →
    Option String
  | [], _ => none
  | p :: ps, cs =>
    match p cs with
    | some zone =>
      if (cleanSummaryZone zone).length > 50 then some (cleanSummaryZone zone)
      else trySummary ps cs
    | none => trySummary ps cs

/-- The record's summary field produced by `simple_parse_resume`. -/
def summaryOf (t : String) : String := (trySummary summaryPatterns t.data).getD ""

/-! The three skills patterns (source lines 171-175). -/

/-- Header `TECHNICAL\s+TOOLS?` (greedily taking the optional `S`; giving
it back cannot help since the continuation needs whitespace next). -/
def techTools (cs : List Char) : Option (List Char) := do
  let r ← lit2 "TECHNICAL" "TOOL" cs
  some (match r with
    | 'S' :: r2 => r2
    | 's' :: r2 => r2
    | _ => r)

/-- Header of the first skills pattern. -/
def hdrSkills1 (cs : List Char) : List (List Char) :=
  optList (lit2 "CORE" "COMPETENCIES" cs <|> lit2 "CORE" "SKILLS" cs <|>
    techTools cs <|> lit "SKILLS" cs <|> lit "TOOLS" cs)

/-- Boundary of the first skills pattern. -/
def bndSkills1 : List Char → Bool
  | '\n' :: t =>
    let u := dropWsL t
    anyLit ["EDUCATION", "CERTIFICATION", "EXPERIENCE", "EMPLOYMENT"] u ||
      lit2At "PROFESSIONAL" "EXPERIENCE" u
  | _ => false

/-- Header of the second skills pattern. -/
def hdrSkills2 (cs : List Char) : List (List Char) :=
  optList (lit2 "CORE" "SKILLS" cs <|> techTools cs <|> lit "SKILLS" cs <|>
    lit "TOOLS" cs)

/-- Boundary `\n\s*(?:EDUCATION|CERTIFICATION)|\Z`. -/
def bndSkills2 (cs : List Char) : Bool :=
  cs.isEmpty ||
    match cs with
    | '\n' :: t => anyLit ["EDUCATION", "CERTIFICATION"] (dropWsL t)
    | _ => false

/-- Header of the third skills pattern. -/
def hdrSkills3 (cs : List Char) : List (List Char) := optList (lit "SKILLS" cs)

/-- Boundary `\n\s*\$|\Z`. -/
def bndSkills3 (cs : List Char) : Bool :=
  cs.isEmpty ||
    match cs with
    | '\n' :: t => headIs '$' (dropWsL t)
    | _ => false

/-- The ordered skills patterns. -/
def skillsPatterns : List (List Char → Option (List Char)) :=
  [sectionScan hdrSkills1 (sectionAfterHeader bndSkills1),
   sectionScan hdrSkills2 (sectionAfterHeader bndSkills2),
   sectionScan hdrSkills3 (sectionAfterHeader bndSkills3)]

/-- Skills zone cleanup (source lines 180-185). -/
def cleanSkillsZone (zone : List Char) : String :=
  ⟨collapseCommas (collapseWs (nlRunsToComma (stripBulletsAll (stripList zone))))⟩

/-- The skills pattern loop (cleaned capture must exceed 10 characters). -/
def trySkills : List (List Char → Option (List Char)) → List Char →
    Option String
  | [], _ => none
  | p :: ps, cs =>
    match p cs with
    | some zone =>
      if (cleanSkillsZone zone).length > 10 then some (cleanSkillsZone zone)
      else trySkills ps cs
    | none => trySkills ps cs

/-- The record's skills field produced by `simple_parse_resume`. -/
def skillsOf (t : String) : String := (trySkills skillsPatterns t.data).getD ""

/-! The data model of `simple_parse_resume` (source lines 97-105). -/

/-- The contact sub-record. -/
structure ContactInfo where
  location : String
  phone : String
  email : String
deriving Repr, DecidableEq

/-- One employment entry. -/
structure JobEntry where
  company : String
  title : String
  location : String
  dates : String
  project_details : String
  bullets : List String
deriving Repr, DecidableEq

/-- One education entry. -/
structure EducationEntry where
  degree : String
  school : String
  year : String
deriving Repr, DecidableEq

/-- The skills field: the heuristic parser produces a string, the LLM
path may deliver a list, which the validator joins. -/
inductive SkillsField where
  | str (s : String)
  | items (l : List String)
deriving Repr, DecidableEq

/-- The parsed resume record. -/
structure ResumeRecord where
  name : String := ""
  contact : ContactInfo := ⟨"", "", ""⟩
  summary : String := ""
  experience : List JobEntry := []
  education : List EducationEntry := []
  certifications : List String := []
  skills : SkillsField := .str ""
deriving Repr, DecidableEq

/-! Education section (source lines 191-239). -/

/-- Header `EDUCATION(?:\s*(?:&|AND)\s*CERTIFICATIONS?)?` — the greedy
optional group yields two candidate rests (with the group first). -/
def hdrEdu1 (cs : List Char) : List (List Char) :=
  match lit "EDUCATION" cs with
  | none => []
  | some r =>
    let grp : Option (List Char) := do
      let r2 ← (lit "&" (dropWsL r) <|> lit "AND" (dropWsL r))
      let r4 ← lit "CERTIFICATION" (dropWsL r2)
      some (match r4 with
        | 'S' :: r5 => r5
        | 's' :: r5 => r5
        | _ => r4)
    match grp with
    | some rg => [rg, r]
    | none => [r]

/-- Boundary `\n\s*(?:CERTIFICATION|SKILLS|EXPERIENCE|$)`: the inner `$`
(no MULTILINE) holds only when everything after the newline is
whitespace running to the end of the text. -/
def bndEdu1 : List Char → Bool
  | '\n' :: t =>
    anyLit ["CERTIFICATION", "SKILLS", "EXPERIENCE"] (dropWsL t) || t.all pyWs
  | _ => false

/-- Header of the second education pattern. -/
def hdrEdu2 (cs : List Char) : List (List Char) := optList (lit "EDUCATION" cs)

/-- Boundary `\Z`. -/
def bndEdu2 (cs : List Char) : Bool := cs.isEmpty

/-- First matching pattern of an ordered list. -/
def firstZone : List (List Char → Option (List Char)) → List Char →
    Option (List Char)
  | [], _ => none
  | p :: ps, cs =>
    match p cs with
    | some z => some z
    | none => firstZone ps cs

/-- The ordered education patterns. -/
def eduPatterns : List (List Char → Option (List Char)) :=
  [sectionScan hdrEdu1 (sectionAfterHeader bndEdu1),
   sectionScan hdrEdu2 (sectionAfterHeader bndEdu2)]

/-- Certification-vocabulary lines skipped inside the education zone. -/
def eduCertSkip (l : String) : Bool :=
  ["pmp", "safe", "scrum", "certified", "certification"].any fun w =>
    subIn w (lowerStr l)

/-- Institution keywords recognising a school line. -/
def schoolKw (l : String) : Bool :=
  ["University", "College", "Institute", "Polytechnic", "School"].any (subIn · l)

/-- Degree keywords checked on the line after a school line. -/
def degreeKwNext (l : String) : Bool :=
  ["Master", "Bachelor", "MSc", "BSc", "MBA", "HND", "M.S", "B.S", "PhD",
   "Diploma"].any (subIn · l)

/-- Degree keywords recognising a degree line. -/
def degreeKwLine (l : String) : Bool :=
  ["Master", "Bachelor", "MSc", "BSc", "MBA", "HND", "M.S.", "B.S.", "PhD",
   "Diploma", "M.Sc", "B.Sc"].any (subIn · l)

/-- Institution keywords checked on the line after a degree line. -/
def instKwNext (l : String) : Bool :=
  ["University", "College", "Institute", "Polytechnic"].any (subIn · l)

/-- First match of `\s*[—–-]\s*`, splitting into the pieces before and
after (Python `re.split(..., 1)` when a separator exists). -/
def dashSplitOnce : List Char → Option (List Char × List Char)
  | [] => none
  | c :: cs =>
    match (c :: cs).dropWhile pyWs with
    | d :: rest =>
      if d = '—' || d = '–' || d = '-' then some ([], rest.dropWhile pyWs)
      else
        match dashSplitOnce cs with
        | some (a, b) => some (c :: a, b)
        | none => none
    | [] => none

/-- The degree-line fallback: split degree and school on the first dash
when the line contains an em dash, an en dash or a spaced hyphen. -/
def eduDashCase (l : String) : EducationEntry :=
  if subIn "—" l || subIn "–" l || subIn " - " l then
    match dashSplitOnce l.data with
    | some (a, b) => ⟨⟨stripList a⟩, ⟨stripList b⟩, ""⟩
    | none => ⟨l, "", ""⟩
  else ⟨l, "", ""⟩

/-- Fueled worker of the education line loop (cursor with one-line
lookahead; each step consumes at least one line, so fuel equal to the
line count suffices). -/
def parseEduAux : Nat → List String → List EducationEntry
  | _, [] => []
  | 0, _ => []
  | n + 1, l :: rest =>
    if eduCertSkip l then parseEduAux n rest
    else if schoolKw l then
      match rest with
      | next :: rest2 =>
        if degreeKwNext next
        then ⟨next, l, ""⟩ :: parseEduAux n rest2
        else ⟨"", l, ""⟩ :: parseEduAux n rest
      | [] => ⟨"", l, ""⟩ :: parseEduAux n rest
    else if degreeKwLine l then
      match rest with
      | next :: rest2 =>
        if instKwNext next
        then ⟨l, next, ""⟩ :: parseEduAux n rest2
        else eduDashCase l :: parseEduAux n rest
      | [] => eduDashCase l :: parseEduAux n rest
    else parseEduAux n rest

/-- The education line loop. -/
def parseEduLines (ls : List String) : List EducationEntry :=
  parseEduAux ls.length ls

/-- The education field of the parsed record. -/
def educationOf (t : String) : List EducationEntry :=
  match firstZone eduPatterns t.data with
  | some z =>
    parseEduLines
      (((splitOnChar '\n' (stripList z)).map stripList).filterMap fun l =>
        if l.isEmpty then none else some ⟨l⟩)
  | none => []

/-! Experience section (source lines 243-534). -/

/-- Header of the experience pattern. -/
def hdrExp (cs : List Char) : List (List Char) :=
  optList (lit2 "PROFESSIONAL" "EXPERIENCE" cs <|>
    lit2 "EMPLOYMENT" "HISTORY" cs <|> lit2 "WORK" "EXPERIENCE" cs <|>
    lit "EXPERIENCE" cs)

/-- Boundary `\n\s*(?:EDUCATION|SELECTED|CORE\s+SKILLS|CERTIFICATIONS?)|\Z`. -/
def bndExp (cs : List Char) : Bool :=
  cs.isEmpty ||
    match cs with
    | '\n' :: t =>
      let u := dropWsL t
      anyLit ["EDUCATION", "SELECTED", "CERTIFICATION"] u ||
        lit2At "CORE" "SKILLS" u
    | _ => false

/-- Rest after the leftmost date-pattern match (for the lazy `.*?` in
front of the inlined date pattern of the dollar fallback). -/
def firstDateRest : List Char → Option (List Char)
  | [] => none
  | c :: t =>
    match dateTryAt true (c :: t) with
    | some r => some r
    | none => firstDateRest t

/-- Boundary `\n\s*EDUCATION|\Z` of the dollar fallback. -/
def bndDollar (cs : List Char) : Bool :=
  cs.isEmpty ||
    match cs with
    | '\n' :: t => (lit "EDUCATION" (dropWsL t)).isSome
    | _ => false

/-- The dollar fallback
`(\$[\d.,]+\s*(?:Billion|Million|B|M)?.*?DATE.*?)(?=\n\s*EDUCATION|\Z)`
tried at one position, returning the group length. -/
def dollarAt (cs : List Char) : Option Nat :=
  match cs with
  | '$' :: r =>
    let nums := r.takeWhile fun c => c.isDigit || c = '.' || c = ','
    if nums.isEmpty then none
    else
      let r2 := (r.drop nums.length).dropWhile pyWs
      let r3 :=
        match altLit true ["Billion".data, "Million".data, "B".data, "M".data] r2 with
        | some x => x
        | none => r2
      match firstDateRest r3 with
      | some afterDate =>
        match capLen bndDollar afterDate with
        | some q => some (cs.length - (afterDate.length - q))
        | none => none
      | none => none
  | _ => none

/-- Leftmost match of the dollar fallback over the text. -/
def dollarScanAux : List Char → Option (List Char)
  | [] => none
  | c :: t =>
    match dollarAt (c :: t) with
    | some n => some ((c :: t).take n)
    | none => dollarScanAux t

/-- The experience zone: the header pattern first, then — when it fails
or captures an empty (falsy) string — the dollar fallback; an empty
final result means no experience section. -/
def expZoneOf (t : String) : Option (List Char) :=
  let z2 :=
    match sectionScan hdrExp (sectionAfterHeader bndExp) t.data with
    | some z => if z.isEmpty then dollarScanAux t.data else some z
    | none => dollarScanAux t.data
  match z2 with
  | some z => if z.isEmpty then none else some z
  | none => none

/-- First `\s*sep\s*` occurrence for the generic splits. -/
def sepSplitFirst (isSep : Char → Bool) : List Char → Option (List Char × List Char)
  | [] => none
  | c :: cs =>
    match (c :: cs).dropWhile pyWs with
    | d :: rest =>
      if isSep d then some ([], rest.dropWhile pyWs)
      else
        match sepSplitFirst isSep cs with
        | some (a, b) => some (c :: a, b)
        | none => none
    | [] => none

/-- Python `re.split` on `\s*sep\s*` for a separator class (fuelled; every
split consumes at least the separator character, so fuel equal to the
input length suffices). -/
def regexSplitAllAux (isSep : Char → Bool) : Nat → List Char → List (List Char)
  | 0, cs => [cs]
  | n + 1, cs =>
    match sepSplitFirst isSep cs with
    | some (a, b) => a :: regexSplitAllAux isSep n b
    | none => [cs]

/-- Python `re.split(r'\s*\|\s*', s)`. -/
def pySplitPipe (s : String) : List String :=
  (regexSplitAllAux (· = '|') (s.data.length + 1) s.data).map fun l => ⟨l⟩

/-- Python `re.split(r'\s*[—|]\s*', s)`. -/
def pySplitEmPipe (s : String) : List String :=
  (regexSplitAllAux (fun c => c = '—' || c = '|') (s.data.length + 1) s.data).map
    fun l => ⟨l⟩

/-- The continuation guard of Format 2 (source lines 338-344). -/
def looksLikeCont (line : String) : Bool :=
  pyEnds line "." || pyEnds line "," ||
    (match line.data with
     | c :: _ => azLower c
     | [] => false) ||
    pyStarts line "and " || pyStarts line "or "

/-- Company group of the Format 3 header
`\$[\d.]+\s*(?:Billion|Million|B|M)?\s*(.*?),?\s*(Jan|...|Dec)` (anchored
`re.match` with IGNORECASE). -/
def dollarCompanyMatch (cs : List Char) : Option (List Char) :=
  match cs with
  | '$' :: r =>
    let nums := r.takeWhile fun c => c.isDigit || c = '.'
    if nums.isEmpty then none
    else
      let r2 := (r.drop nums.length).dropWhile pyWs
      let r3 :=
        match altLit true ["Billion".data, "Million".data, "B".data, "M".data] r2 with
        | some x => x
        | none => r2
      let r4 := r3.dropWhile pyWs
      (capLen
        (fun u =>
          match u with
          | ',' :: v => (monthAt true (v.dropWhile pyWs)).isSome
          | _ => (monthAt true (u.dropWhile pyWs)).isSome)
        r4).map fun q => r4.take q
  | _ => none

/-- Strip one leading bullet marker and the following whitespace
(`re.sub(r'^[\•\-\*]\s*', '', line)`). -/
def stripLeadBullet (cs : List Char) : List Char :=
  match cs with
  | c :: r => if c = '•' || c = '-' || c = '*' then r.dropWhile pyWs else cs
  | [] => []

/-- Strip a leading `(cid:N)` artifact
(`re.sub(r'^\(cid:\d+\)\s*', '', line)`). -/
def stripCid (cs : List Char) : List Char :=
  match cs with
  | '(' :: 'c' :: 'i' :: 'd' :: ':' :: r =>
    let ds := r.takeWhile Char.isDigit
    if ds.isEmpty then cs
    else
      match r.drop ds.length with
      | ')' :: r2 => r2.dropWhile pyWs
      | _ => cs
  | _ => cs

/-- Append a wrapped continuation to the last bullet of a job. -/
def appendToLastBullet (j : JobEntry) (line : String) : JobEntry :=
  { j with bullets := j.bullets.dropLast ++ [j.bullets.getLastD "" ++ " " ++ line] }

/-- Remove the last bullet of the last closed job. -/
def popLastJobBullet (jobs : List JobEntry) : List JobEntry :=
  match jobs.getLast? with
  | some j => jobs.dropLast ++ [{ j with bullets := j.bullets.dropLast }]
  | none => jobs

/-- Section-header words closing bullet absorption (source line 519). -/
def expSectionWords : List String :=
  ["University", "College", "EDUCATION", "SKILLS", "CERTIFICATION",
   "CORE COMPETENCIES"]

/-- The experience line loop (source lines 267-528): `prevRaw` is the raw
previous list element (`exp_lines[i-1]`), `cur` the open job, `jobs` the
closed ones.  Each classification rule advances by one or two lines. -/
def expLoopAux : Nat → Option String → Option JobEntry → List JobEntry →
    List String → List JobEntry
  | _, _, cur, jobs, [] => jobs ++ cur.toList
  | 0, _, cur, jobs, _ => jobs ++ cur.toList
  | n + 1, prevRaw, cur, jobs, raw :: rest =>
    let line := pyStrip raw
    if line = "" then expLoopAux n (some raw) cur jobs rest
    else
      let hasDate := hasDateMatch true line
      -- Format 1: "Title — Company | Dates"
      if subIn "—" line && hasDate then
        let parts := pySplitEmPipe line
        let j : JobEntry :=
          { company := pyStrip (parts.getD 1 ""), title := pyStrip (parts.getD 0 "")
            location := "", dates := pyStrip (parts.getD 2 "")
            project_details := "", bullets := [] }
        expLoopAux n (some raw) (some j) (jobs ++ cur.toList) rest
      -- Format 1b: "COMPANY | Title" then "Dates | Location"
      else if subIn "|" line && !hasDate && !(pyStarts line "•") then
        match rest with
        | next0 :: rest2 =>
          let next := pyStrip next0
          if hasDateMatch true next then
            let parts := pySplitPipe line
            let locParts :=
              (pySplitPipe (pyStrip (dateSub true next))).map pyStrip
            let j : JobEntry :=
              { company := pyStrip (parts.getD 0 ""), title := pyStrip (parts.getD 1 "")
                location := joinSep " " (locParts.filter (· ≠ ""))
                dates := pyStrip (dateGroup0 true next)
                project_details := "", bullets := [] }
            expLoopAux n (some next0) (some j) (jobs ++ cur.toList) rest2
          else expLoopAux n (some raw) cur jobs rest
        | [] => expLoopAux n (some raw) cur jobs rest
      -- Format 2: short dateless line, lookahead decides company or title
      else if !hasDate && !(pyStarts line "•") && !(pyStarts line "(") &&
          line.length < 80 then
        let cont := looksLikeCont line
        let fallthrough : List JobEntry :=
          -- bullet continuation: append to the last bullet of the open job
          jobs
        match rest with
        | next0 :: rest2 =>
          let next := pyStrip next0
          let nextHasDate := hasDateMatch true next
          let beforeDate := pyStrip (dateSub true next)
          let hasSep := subIn "|" beforeDate || subIn " – " beforeDate ||
            subIn " — " beforeDate
          if !cont && nextHasDate && hasSep then
            let lwd := pyStrip (pyRstripChar '|' (pyStrip (dateSub true next)))
            let parts := ((pySplitPipe lwd).map pyStrip).filter (· ≠ "")
            let j : JobEntry :=
              { company := line, title := parts.getD 0 ""
                location := if parts.length > 1 then joinSep ", " (parts.drop 1) else ""
                dates := pyStrip (dateGroup0 true next)
                project_details := "", bullets := [] }
            expLoopAux n (some next0) (some j) (jobs ++ cur.toList) rest2
          else if !cont && nextHasDate && !(subIn "|" next) then
            let j : JobEntry :=
              { company := pyStrip (pyRstripChar ',' (pyStrip (dateSub true next)))
                title := line, location := ""
                dates := pyStrip (dateGroup0 true next)
                project_details := "", bullets := [] }
            expLoopAux n (some next0) (some j) (jobs ++ cur.toList) rest2
          else
            match cur with
            | some c =>
              if c.bullets ≠ [] &&
                  !(["University", "College", "EDUCATION", "SKILLS",
                    "CERTIFICATION"].any fun w => subIn w line) &&
                  !pyIsUpper line.data then
                expLoopAux n (some raw) (some (appendToLastBullet c line)) fallthrough rest
              else expLoopAux n (some raw) cur jobs rest
            | none => expLoopAux n (some raw) cur jobs rest
        | [] =>
          match cur with
          | some c =>
            if c.bullets ≠ [] &&
                !(["University", "College", "EDUCATION", "SKILLS",
                  "CERTIFICATION"].any fun w => subIn w line) &&
                !pyIsUpper line.data then
              expLoopAux n (some raw) (some (appendToLastBullet c line)) fallthrough rest
            else expLoopAux n (some raw) cur jobs rest
          | none => expLoopAux n (some raw) cur jobs rest
      -- Format 3: "$X Billion Company ... Dates" then optional title line
      else if pyStarts line "$" && hasDate then
        let company :=
          match dollarCompanyMatch line.data with
          | some g => pyRstripChar ',' (pyStrip ⟨g⟩)
          | none => line
        let dates := dateGroup0 true line
        match rest with
        | next0 :: rest2 =>
          let next := pyStrip next0
          if !(pyStarts next "•") && !(hasDateMatch false next) then
            let j : JobEntry :=
              { company := company, title := next, location := "", dates := dates
                project_details := "", bullets := [] }
            expLoopAux n (some next0) (some j) (jobs ++ cur.toList) rest2
          else
            let j : JobEntry :=
              { company := company, title := "", location := "", dates := dates
                project_details := "", bullets := [] }
            expLoopAux n (some raw) (some j) (jobs ++ cur.toList) rest
        | [] =>
          let j : JobEntry :=
            { company := company, title := "", location := "", dates := dates
              project_details := "", bullets := [] }
          expLoopAux n (some raw) (some j) (jobs ++ cur.toList) rest
      -- Format 4: "Company Dates" with title from the previous or next line
      else if hasDate && !(pyStarts line "•") then
        let jobsA := jobs ++ cur.toList
        let dates := dateGroup0 true line
        let company := pyStrip (pyRstripChar ',' (pyStrip (dateSub true line)))
        let prevTitle : String :=
          match prevRaw with
          | some praw =>
            let prev := pyStrip praw
            if prev ≠ "" && !(pyStarts prev "•") && !(hasDateMatch true prev) &&
                prev.length < 60 && !(pyEnds prev ".") && !(pyEnds prev ",")
            then prev else ""
          | none => ""
        let resTJ : String × List JobEntry :=
          if prevTitle ≠ "" then
            match jobsA.getLast? with
            | some lastJob =>
              if lastJob.bullets ≠ [] then
                let lastBullet := lastJob.bullets.getLastD ""
                if subIn prevTitle lastBullet then ("", jobsA)
                else if lastBullet = prevTitle then (prevTitle, popLastJobBullet jobsA)
                else (prevTitle, jobsA)
              else (prevTitle, jobsA)
            | none => (prevTitle, jobsA)
          else ("", jobsA)
        if resTJ.1 = "" then
          match rest with
          | next0 :: rest2 =>
            let next := pyStrip next0
            if !(pyStarts next "•") && !(hasDateMatch true next) then
              let j : JobEntry :=
                { company := company, title := next, location := "", dates := dates
                  project_details := "", bullets := [] }
              expLoopAux n (some next0) (some j) resTJ.2 rest2
            else
              let j : JobEntry :=
                { company := company, title := "", location := "", dates := dates
                  project_details := "", bullets := [] }
              expLoopAux n (some raw) (some j) resTJ.2 rest
          | [] =>
            let j : JobEntry :=
              { company := company, title := "", location := "", dates := dates
                project_details := "", bullets := [] }
            expLoopAux n (some raw) (some j) resTJ.2 rest
        else
          let j : JobEntry :=
            { company := company, title := resTJ.1, location := "", dates := dates
              project_details := "", bullets := [] }
          expLoopAux n (some raw) (some j) resTJ.2 rest
      -- explicit bullet lines
      else if cur.isSome && (pyStarts line "•" || pyStarts line "-" ||
          pyStarts line "*" || (pyStarts line "(" && subIn "cid:" line)) then
        match cur with
        | some c =>
          let bullet : String := ⟨stripCid (stripLeadBullet line.data)⟩
          if bullet ≠ "" && bullet.length > 10 then
            expLoopAux n (some raw) (some { c with bullets := c.bullets ++ [bullet] }) jobs rest
          else expLoopAux n (some raw) cur jobs rest
        | none => expLoopAux n (some raw) cur jobs rest
      -- unmarked content lines
      else if cur.isSome && !hasDate then
        match cur with
        | some c =>
          let isSec := expSectionWords.any fun w => subIn w line
          let isCaps := pyIsUpper line.data && line.length > 3
          if !isSec && !isCaps && !(subIn "|" line) && line.length > 20 then
            expLoopAux n (some raw) (some { c with bullets := c.bullets ++ [line] }) jobs rest
          else expLoopAux n (some raw) cur jobs rest
        | none => expLoopAux n (some raw) cur jobs rest
      else expLoopAux n (some raw) cur jobs rest

/-- The Experience Entry Parser on the zone's raw line list. -/
def parseExperienceLines (ls : List String) : List JobEntry :=
  expLoopAux ls.length none none [] ls

/-- The experience field of the parsed record. -/
def experienceOf (t : String) : List JobEntry :=
  match expZoneOf t with
  | some z => parseExperienceLines ((splitOnChar '\n' z).map fun l => ⟨l⟩)
  | none => []

/-! Certifications section (source lines 537-556). -/

/-- Header `CERTIFICATION[S]?`. -/
def hdrCert1 (cs : List Char) : List (List Char) :=
  optList (do
    let r ← lit "CERTIFICATION" cs
    some (match r with
      | 'S' :: r2 => r2
      | 's' :: r2 => r2
      | _ => r))

/-- Boundary of the first certification pattern. -/
def bndCert1 (cs : List Char) : Bool :=
  cs.isEmpty ||
    match cs with
    | '\n' :: t => anyLit ["EDUCATION", "EXPERIENCE", "SKILLS", "TECHNICAL"] (dropWsL t)
    | _ => false

/-- Header `EDUCATION\s*(?:&|AND)\s*CERTIFICATIONS?` of the second
certification pattern. -/
def hdrCert2 (cs : List Char) : List (List Char) :=
  optList (do
    let r1 ← lit "EDUCATION" cs
    let r2 ← (lit "&" (dropWsL r1) <|> lit "AND" (dropWsL r1))
    let r3 ← lit "CERTIFICATION" (dropWsL r2)
    some (match r3 with
      | 'S' :: r => r
      | 's' :: r => r
      | _ => r3))

/-- One of the certification keywords `PMP|PMI|SAFe|OSHA|Certified`. -/
def certKeywordAt (cs : List Char) : Bool :=
  anyLit ["PMP", "PMI", "SAFe", "OSHA", "Certified"] cs

/-- Continuation `\s*\n+.*?((?:PMP|...).*?)(?=\Z)` of the second
certification pattern: the group runs from the first keyword occurrence
after the header to the end of the text. -/
def cert2Scan (rest : List Char) : Option (List Char) :=
  let run := rest.takeWhile pyWs
  let upto := rstripP (fun c => c ≠ '\n') run
  if upto.isEmpty then none
  else
    let p0 := rest.drop upto.length
    (capLen certKeywordAt p0).map fun q => p0.drop q

/-- The ordered certification patterns. -/
def certPatterns : List (List Char → Option (List Char)) :=
  [sectionScan hdrCert1 (sectionAfterHeader bndCert1),
   sectionScan hdrCert2 cert2Scan]

/-- Lines of a certification zone: stripped, bullet marker removed,
longer than three characters and free of degree words. -/
def certsFromZone (zone : List Char) : List String :=
  ((splitOnChar '\n' zone).map fun l => stripLeadBullet (stripList l)).filterMap
    fun l =>
      if !l.isEmpty && l.length > 3 &&
          !(["University", "College", "Bachelor", "Master", "MSc", "BSc",
            "MBA"].any fun w => subInList w.data l)
      then some ⟨l⟩ else none

/-- The certification pattern loop: the first pattern producing a
nonempty line list wins, truncated to ten entries. -/
def tryCerts : List (List Char → Option (List Char)) → List Char →
    Option (List String)
  | [], _ => none
  | p :: ps, cs =>
    match p cs with
    | some zone =>
      if (certsFromZone zone).isEmpty then tryCerts ps cs
      else some ((certsFromZone zone).take 10)
    | none => tryCerts ps cs

/-- The certifications field of the parsed record. -/
def certificationsOf (t : String) : List String :=
  (tryCerts certPatterns t.data).getD []

/-! Assembly of `simple_parse_resume` (source lines 92-558). -/

/-- One step of the contact loop: an email or phone match on the line
overwrites the corresponding field. -/
def contactStep (acc : ContactInfo) (l : String) : ContactInfo :=
  let acc1 :=
    match emailFind l with
    | some m => { acc with email := m }
    | none => acc
  match phoneFind l with
  | some m => { acc1 with phone := m }
  | none => acc1

/-- The contact loop over the first thirty raw lines, keeping the last
email and phone matches. -/
def contactFold (ls : List String) : ContactInfo :=
  ls.foldl contactStep ⟨"", "", ""⟩

/-- The heuristic resume parser `simple_parse_resume`. -/
def simple_parse_resume (t : String) : ResumeRecord :=
  let ls := pySplit '\n' t
  { name := findName (ls.take 10)
    contact := contactFold (ls.take 30)
    summary := summaryOf t
    experience := experienceOf t
    education := educationOf t
    certifications := certificationsOf t
    skills := .str (skillsOf t) }

/-! The validator (source lines 560-612). -/

/-- The fixed skill-keyword count `skill_count_in_text`. -/
def skill_count_in_text (s : String) : Nat :=
  (["primavera", "microsoft project", "power bi", "excel", "oracle", "sap"].filter
    fun w => subIn w (lowerStr s)).length

/-- Non-bulleted nonempty stripped paragraphs of a summary. -/
def paragraphsOf (s : String) : List String :=
  ((pySplit '\n' s).map pyStrip).filter fun p => p ≠ "" && !(pyStarts p "•")

/-- The summary sanity check: a summary with more than three skill
keywords is replaced by its first long low-skill paragraph, if any. -/
def fixSummary (s : String) : String :=
  if skill_count_in_text s > 3 then
    match (paragraphsOf s).find? fun p =>
        decide (p.length > 100) && decide (skill_count_in_text p < 3) with
    | some p => p
    | none => s
  else s

/-- The dedup key `company|title`. -/
def expKey (e : JobEntry) : String := e.company ++ "|" ++ e.title

/-- The dedup key `degree|school`. -/
def eduKey (e : EducationEntry) : String := e.degree ++ "|" ++ e.school

/-- The shared shape of the two dedup loops: keep an entry when its key
is unseen and its required field (company resp. degree) is nonempty,
recording the key. -/
def dedupKeyAux {α : Type} (key fld : α → String) (seen : List String) :
    List α → List α
  | [] => []
  | e :: rest =>
    if !(seen.contains (key e)) && fld e ≠ ""
    then e :: dedupKeyAux key fld (key e :: seen) rest
    else dedupKeyAux key fld seen rest

/-- Experience dedup loop with its seen-key set. -/
def dedupExpAux (seen : List String) (l : List JobEntry) : List JobEntry :=
  dedupKeyAux expKey (fun e => e.company) seen l

/-- Education dedup loop with its seen-key set. -/
def dedupEduAux (seen : List String) (l : List EducationEntry) :
    List EducationEntry :=
  dedupKeyAux eduKey (fun e => e.degree) seen l

/-- The validator `validate_and_clean_data`.  Each step is guarded by the
Python truthiness test on the current field value. -/
def validate_and_clean_data (d : ResumeRecord) : ResumeRecord :=
  let experience := if d.experience.isEmpty then d.experience else dedupExpAux [] d.experience
  let summary := if d.summary = "" then d.summary else fixSummary d.summary
  let skills :=
    match d.skills with
    | .items l => if l.isEmpty then d.skills else .str (joinSep ", " l)
    | .str _ => d.skills
  let education := if d.education.isEmpty then d.education else dedupEduAux [] d.education
  { d with
    experience := experience
    summary := summary
    skills := skills
    education := education }

/-- The cleaned candidate of the first summary pattern (used to witness
the acceptance threshold). -/
def summaryZone1 (t : String) : Option String :=
  (sectionScan hdrSummary1 (sectionAfterHeader bndSummary1) t.data).map
    cleanSummaryZone

/-- The experience deduplication written from the specification's words:
entries with empty company are dropped, and of entries sharing the key
`company|title` only the first occurrence is kept. -/
def specDedupExperience (l : List JobEntry) : List JobEntry :=
  (l.filter fun e => e.company ≠ "").foldl
    (fun acc e =>
      if acc.any (fun x => expKey x == expKey e) then acc else acc ++ [e])
    []

/-! Helper lemmas. -/

/-- Characters are equal when their code points are. -/
theorem char_eq_of_toNat {c d : Char} (h : c.val.toNat = d.val.toNat) : c = d :=
  Char.ext (UInt32.ext h)

/-- A decimal digit character is one of the ten digits. -/
theorem digit_cases (c : Char) (h : c.isDigit = true) :
    c = '0' ∨ c = '1' ∨ c = '2' ∨ c = '3' ∨ c = '4' ∨ c = '5' ∨ c = '6' ∨
    c = '7' ∨ c = '8' ∨ c = '9' := by
  simp only [Char.isDigit, ge_iff_le, Bool.and_eq_true, decide_eq_true_eq] at h
  obtain ⟨h1, h2⟩ := h
  have hv1 : 48 ≤ c.val.toNat := h1
  have hv2 : c.val.toNat ≤ 57 := h2
  interval_cases hn : c.val.toNat <;>
    first
      | exact Or.inl (char_eq_of_toNat (by rw [hn]; rfl))
      | exact Or.inr (Or.inl (char_eq_of_toNat (by rw [hn]; rfl)))
      | exact Or.inr (Or.inr (Or.inl (char_eq_of_toNat (by rw [hn]; rfl))))
      | exact Or.inr (Or.inr (Or.inr (Or.inl (char_eq_of_toNat (by rw [hn]; rfl)))))
      | exact Or.inr (Or.inr (Or.inr (Or.inr (Or.inl (char_eq_of_toNat (by rw [hn]; rfl))))))
      | exact Or.inr (Or.inr (Or.inr (Or.inr (Or.inr (Or.inl (char_eq_of_toNat (by rw [hn]; rfl)))))))
      | exact Or.inr (Or.inr (Or.inr (Or.inr (Or.inr (Or.inr (Or.inl (char_eq_of_toNat (by rw [hn]; rfl))))))))
      | exact Or.inr (Or.inr (Or.inr (Or.inr (Or.inr (Or.inr (Or.inr (Or.inl (char_eq_of_toNat (by rw [hn]; rfl)))))))))
      | exact Or.inr (Or.inr (Or.inr (Or.inr (Or.inr (Or.inr (Or.inr (Or.inr (Or.inl (char_eq_of_toNat (by rw [hn]; rfl))))))))))
      | exact Or.inr (Or.inr (Or.inr (Or.inr (Or.inr (Or.inr (Or.inr (Or.inr (Or.inr (char_eq_of_toNat (by rw [hn]; rfl))))))))))

/-- No month name starts with a digit. -/
theorem digit_monthAt (ci : Bool) (c : Char) (cs : List Char)
    (h : c.isDigit = true) : monthAt ci (c :: cs) = none := by
  rcases digit_cases c h with h | h | h | h | h | h | h | h | h | h <;>
    subst h <;> cases ci <;> rfl

/-- A digit is not in the date separator class. -/
theorem digit_dateSep (ci : Bool) (c : Char) (h : c.isDigit = true) :
    dateSepChar ci c = false := by
  rcases digit_cases c h with h | h | h | h | h | h | h | h | h | h <;>
    subst h <;> cases ci <;> rfl

/-- The month prefix chunk fails on a digit-initial input. -/
theorem digit_monthChunk (ci : Bool) (c : Char) (cs : List Char)
    (h : c.isDigit = true) : monthChunk ci (c :: cs) = none := by
  simp [monthChunk, digit_monthAt ci c cs h]

/-- The date pattern never matches at a position of an all-digit input:
after the four digits the mandatory separator run finds no character. -/
theorem all_digit_dateTryAt (cs : List Char)
    (h : ∀ c ∈ cs, c.isDigit = true) : dateTryAt true cs = none := by
  match cs with
  | [] => rfl
  | [a] =>
    simp [dateTryAt, digit_monthChunk true a [] (h a (by simp)), exact4Digits]
  | [a, b] =>
    simp [dateTryAt, digit_monthChunk true a _ (h a (by simp)), exact4Digits]
  | [a, b, c] =>
    simp [dateTryAt, digit_monthChunk true a _ (h a (by simp)), exact4Digits]
  | [a, b, c, d] =>
    simp [dateTryAt, digit_monthChunk true a _ (h a (by simp)), exact4Digits,
      dateTail, h a (by simp), h b (by simp), h c (by simp), h d (by simp)]
  | a :: b :: c :: d :: e :: rest =>
    simp [dateTryAt, digit_monthChunk true a _ (h a (by simp)), exact4Digits,
      dateTail, h a (by simp), h b (by simp), h c (by simp), h d (by simp),
      digit_dateSep true e (h e (by simp))]

/-- The date search fails on an all-digit input. -/
theorem all_digit_dateSearchAux (cs : List Char) (idx : Nat)
    (h : ∀ c ∈ cs, c.isDigit = true) : dateSearchAux true idx cs = none := by
  induction cs generalizing idx with
  | nil => rfl
  | cons c rest ih =>
    simp only [dateSearchAux, all_digit_dateTryAt (c :: rest) h]
    exact ih (idx + 1) fun x hx => h x (by simp [hx])

/-! Claim theorems. -/

/-- Claim C2 (counterexample): the date pattern does match two year runs
that are separated only by a space (whitespace belongs to the separator
character class `[-–—to\s]`), and it does not match the numeric slash
date range `MM/DD/YY - MM/DD/YY`, which contains no four-digit run. -/
theorem C2_counterexample :
    hasDateMatch true "2019 2021" = true ∧
    hasDateMatch true "05/12/20 - 06/01/21" = false := by
  constructor <;> decide

/-- Claim C2 (amended): the pattern matches month-name + year ranges,
bare year ranges and slash dates with a four-digit year, requiring at
least one character of the class `[-–—to\s]` — which includes bare
whitespace — between the four-digit left year and the right endpoint;
a string consisting solely of decimal digits never matches. -/
theorem C2_amended :
    hasDateMatch true "Jan 2020 - Dec 2021" = true ∧
    hasDateMatch true "2019 - 2021" = true ∧
    hasDateMatch true "03/2020 to 04/2021" = true ∧
    hasDateMatch true "2019 2021" = true ∧
    ∀ s : String, (∀ c ∈ s.data, c.isDigit = true) → hasDateMatch true s = false := by
  refine ⟨by decide, by decide, by decide, by decide, fun s h => ?_⟩
  simp [hasDateMatch, all_digit_dateSearchAux s.data 0 h]

/-- Claim C2 (witness for the amended universal part). -/
theorem C2_amended_witness : hasDateMatch true "20202020" = false :=
  C2_amended.2.2.2.2 "20202020" (by decide)

/-- Claim C6: the date pattern matches "Jan 2020 – Present" (en dash,
`Present` right endpoint) and does not match the bare digit run
"2020202020". -/
theorem C6_dates :
    hasDateMatch true "Jan 2020 – Present" = true ∧
    hasDateMatch true "2020202020" = false := by
  constructor <;> decide

/-- Claim C5: on the three zone lines of the specification's example the
Experience Parser produces exactly one JobEntry, the Company|Title rule
on the first line consuming the Dates|Location line. -/
theorem C5_acme_zone :
    parseExperienceLines
      ["Acme Corp | Senior Engineer", "Jan 2019 - Dec 2021 | Austin, TX",
       "• Led migration of core services"] =
    [{ company := "Acme Corp", title := "Senior Engineer",
       location := "Austin, TX", dates := "Jan 2019 - Dec 2021",
       project_details := "", bullets := ["Led migration of core services"] }] := by
  decide

/-- Claim C3 (counterexample): although the next line "Acme Inc. -
Austin, TX" contains the alleged company indicator token "Inc.", the
generic text + date rule does not make the text before the date the
title — no indicator-token inspection exists in the code. -/
theorem C3_counterexample :
    (parseExperienceLines
      ["Senior Engineer Jan 2019 - Dec 2020", "Acme Inc. - Austin, TX"]).map
        JobEntry.title ≠ ["Senior Engineer"] := by
  decide

/-- Claim C3 (amended): in the generic text + date rule the text before
the date always becomes the company; the title comes from the previous
line when it qualifies, otherwise the next line (consumed whole, never
split into company and location) — here the next line contains "Inc."
and still lands, verbatim, in the title field. -/
theorem C3_amended :
    subIn "Inc." "Acme Inc. - Austin, TX" = true ∧
    parseExperienceLines
      ["Senior Engineer Jan 2019 - Dec 2020", "Acme Inc. - Austin, TX"] =
    [{ company := "Senior Engineer", title := "Acme Inc. - Austin, TX",
       location := "", dates := "Jan 2019 - Dec 2020",
       project_details := "", bullets := [] }] := by
  constructor <;> decide

/-- Claim C7 (counterexample): a summary zone whose cleanup yields
exactly 50 characters is rejected — the acceptance test is strictly
greater than 50, so the parsed record's summary stays empty. -/
theorem C7_counterexample :
    summaryZone1
        "SUMMARY\nDedicated builder of data tools with ten yrs depth\nSKILLS\nPython Go Rust" =
      some "Dedicated builder of data tools with ten yrs depth" ∧
    ("Dedicated builder of data tools with ten yrs depth" : String).length = 50 ∧
    (simple_parse_resume
        "SUMMARY\nDedicated builder of data tools with ten yrs depth\nSKILLS\nPython Go Rust").summary =
      "" := by
  refine ⟨by decide, by decide, by decide⟩

/-- Claim C1 (counterexample): the record returned by the heuristic path
is not validated, so duplicated jobs survive in its experience list —
here the same company and title appear twice and the list differs from
its deduplication. -/
theorem C1_counterexample :
    (simple_parse_resume
        "John Smith\nEXPERIENCE\nAcme Corp | Engineer\nJan 2019 - Dec 2020 | Austin\n• Built something great here\nAcme Corp | Engineer\nJan 2019 - Dec 2020 | Austin\n• Built another thing here").experience ≠
      specDedupExperience
        (simple_parse_resume
          "John Smith\nEXPERIENCE\nAcme Corp | Engineer\nJan 2019 - Dec 2020 | Austin\n• Built something great here\nAcme Corp | Engineer\nJan 2019 - Dec 2020 | Austin\n• Built another thing here").experience := by
  decide

/-! Lemmas about the dedup loops. -/

/-- Every entry kept by the dedup loop has a nonempty required field and
a key outside the initial seen set. -/
theorem dedupKeyAux_mem {α : Type} (key fld : α → String) :
    ∀ (l : List α) (seen : List String) (e : α),
      e ∈ dedupKeyAux key fld seen l →
      fld e ≠ "" ∧ seen.contains (key e) = false := by
  intro l
  induction l with
  | nil => intro seen e he; simp [dedupKeyAux] at he
  | cons a rest ih =>
    intro seen e he
    rw [dedupKeyAux] at he
    by_cases hc : !(seen.contains (key a)) && fld a ≠ ""
    · rw [if_pos hc] at he
      simp only [Bool.and_eq_true, Bool.not_eq_true', decide_eq_true_eq] at hc
      rcases List.mem_cons.mp he with he | he
      · subst he; exact ⟨hc.2, hc.1⟩
      · have h2 := ih (key a :: seen) e he
        refine ⟨h2.1, ?_⟩
        have := h2.2
        simp only [List.contains_cons, Bool.or_eq_false_iff] at this
        exact this.2
    · rw [if_neg hc] at he
      exact ih seen e he

/-- The keys of the dedup loop's output are pairwise distinct. -/
theorem dedupKeyAux_nodup {α : Type} (key fld : α → String) :
    ∀ (l : List α) (seen : List String),
      ((dedupKeyAux key fld seen l).map key).Nodup := by
  intro l
  induction l with
  | nil => intro seen; simp [dedupKeyAux]
  | cons a rest ih =>
    intro seen
    rw [dedupKeyAux]
    by_cases hc : !(seen.contains (key a)) && fld a ≠ ""
    · rw [if_pos hc]
      simp only [List.map_cons, List.nodup_cons]
      refine ⟨?_, ih (key a :: seen)⟩
      intro hmem
      rcases List.mem_map.mp hmem with ⟨e, he, hk⟩
      have h2 := (dedupKeyAux_mem key fld rest (key a :: seen) e he).2
      simp only [List.contains_cons, Bool.or_eq_false_iff, beq_eq_false_iff_ne] at h2
      exact h2.1 hk
    · rw [if_neg hc]; exact ih seen

/-- A list whose entries all have nonempty required fields, unseen keys
and pairwise distinct keys is a fixed point of the dedup loop. -/
theorem dedupKeyAux_fixed {α : Type} (key fld : α → String) :
    ∀ (l : List α) (seen : List String),
      (∀ e ∈ l, fld e ≠ "" ∧ seen.contains (key e) = false) →
      ((l.map key).Nodup) →
      dedupKeyAux key fld seen l = l := by
  intro l
  induction l with
  | nil => intro seen _ _; rfl
  | cons a rest ih =>
    intro seen h hnd
    have ha := h a (List.mem_cons_self a rest)
    rw [dedupKeyAux, if_pos (by
      simp only [Bool.and_eq_true, Bool.not_eq_true', decide_eq_true_eq]
      exact ⟨ha.2, ha.1⟩)]
    congr 1
    simp only [List.map_cons, List.nodup_cons] at hnd
    refine ih (key a :: seen) (fun e he => ?_) hnd.2
    refine ⟨(h e (List.mem_cons_of_mem a he)).1, ?_⟩
    simp only [List.contains_cons, Bool.or_eq_false_iff, beq_eq_false_iff_ne]
    refine ⟨?_, (h e (List.mem_cons_of_mem a he)).2⟩
    intro hk
    exact hnd.1 (List.mem_map.mpr ⟨e, he, hk⟩)

/-- Running the dedup loop on its own output changes nothing. -/
theorem dedupKeyAux_idem {α : Type} (key fld : α → String) (l : List α) :
    dedupKeyAux key fld [] (dedupKeyAux key fld [] l) = dedupKeyAux key fld [] l := by
  refine dedupKeyAux_fixed key fld _ []
    (fun e he => ⟨(dedupKeyAux_mem key fld l [] e he).1, rfl⟩)
    (dedupKeyAux_nodup key fld l [])

/-- Boolean equality on strings is symmetric. -/
theorem strBeqComm (a b : String) : (a == b) = (b == a) := by
  by_cases h : a = b
  · subst h; rfl
  · rw [beq_eq_false_iff_ne.mpr h, beq_eq_false_iff_ne.mpr fun e => h e.symm]

/-- The validator's combined dedup loop computes the specification's
filter-then-first-occurrence deduplication. -/
theorem dedup_loop_eq :
    ∀ (l : List JobEntry) (seen : List String) (acc : List JobEntry),
      (∀ k : String, seen.contains k = acc.any fun x => expKey x == k) →
      (l.filter fun e => e.company ≠ "").foldl
        (fun a e => if a.any (fun x => expKey x == expKey e) then a else a ++ [e]) acc
        = acc ++ dedupExpAux seen l := by
  intro l
  induction l with
  | nil => intro seen acc h; simp [dedupExpAux, dedupKeyAux]
  | cons e rest ih =>
    intro seen acc h
    by_cases hc : e.company = ""
    · rw [List.filter_cons_of_neg (by simp [hc])]
      rw [show dedupExpAux seen (e :: rest) = dedupExpAux seen rest by
        rw [dedupExpAux, dedupKeyAux, if_neg (by
          intro hb
          simp only [Bool.and_eq_true, decide_eq_true_eq] at hb
          exact hb.2 hc)]
        rfl]
      exact ih seen acc h
    · rw [List.filter_cons_of_pos (by simp [hc])]
      simp only [List.foldl_cons]
      cases hseen : seen.contains (expKey e) with
      | true =>
        have hany : (acc.any fun x => expKey x == expKey e) = true := by
          rw [← h (expKey e)]; exact hseen
        rw [if_pos hany]
        rw [show dedupExpAux seen (e :: rest) = dedupExpAux seen rest by
          rw [dedupExpAux, dedupKeyAux, if_neg (by
            intro hb
            simp only [Bool.and_eq_true, Bool.not_eq_true', decide_eq_true_eq] at hb
            rw [hseen] at hb
            exact Bool.noConfusion hb.1)]
          rfl]
        exact ih seen acc h
      | false =>
        have hany : (acc.any fun x => expKey x == expKey e) = false := by
          rw [← h (expKey e)]; exact hseen
        rw [if_neg (by simp [hany])]
        rw [show dedupExpAux seen (e :: rest)
            = e :: dedupExpAux (expKey e :: seen) rest by
          rw [dedupExpAux, dedupKeyAux, if_pos (by
            simp only [Bool.and_eq_true, Bool.not_eq_true', decide_eq_true_eq]
            exact ⟨hseen, hc⟩)]
          rfl]
        rw [ih (expKey e :: seen) (acc ++ [e]) ?_]
        · simp
        · intro k
          simp only [List.contains_cons, List.any_append, List.any_cons,
            List.any_nil, h k, Bool.or_false]
          rw [show (k == expKey e) = (expKey e == k) from strBeqComm k (expKey e)]
          exact Bool.or_comm _ _

/-- Claim C1 (amended): validated records do satisfy the property — for
every record, the experience list after `validate_and_clean_data` equals
its deduplication by the key company|title with empty-company entries
dropped (the LLM path validates its decoded record; the heuristic path
returns the record of `simple_parse_resume` unvalidated, see the
counterexample). -/
theorem C1_amended (d : ResumeRecord) :
    (validate_and_clean_data d).experience = specDedupExperience d.experience := by
  have h0 : (validate_and_clean_data d).experience
      = if d.experience.isEmpty then d.experience else dedupExpAux [] d.experience := rfl
  rw [h0]
  cases hd : d.experience with
  | nil => simp [specDedupExperience]
  | cons a l =>
    simp only [List.isEmpty_cons, Bool.false_eq_true, if_false]
    rw [specDedupExperience, dedup_loop_eq (a :: l) [] [] (fun k => rfl)]
    simp

/-! Idempotence of the validator. -/

/-- Each summary-check outcome: either the summary is kept unchanged, or
the replacing paragraph has a skill count below three. -/
theorem fixSummary_out (s : String) :
    fixSummary s = s ∨ skill_count_in_text (fixSummary s) < 3 := by
  by_cases h : skill_count_in_text s > 3
  · cases hf : (paragraphsOf s).find? (fun p =>
        decide (p.length > 100) && decide (skill_count_in_text p < 3)) with
    | none =>
      left; unfold fixSummary; rw [if_pos h, hf]
    | some p =>
      right
      have hp := List.find?_some hf
      simp only [Bool.and_eq_true, decide_eq_true_eq] at hp
      unfold fixSummary
      rw [if_pos h, hf]
      exact hp.2
  · left; unfold fixSummary; rw [if_neg h]

/-- The summary sanity check is idempotent. -/
theorem fixSummary_idem (s : String) : fixSummary (fixSummary s) = fixSummary s := by
  have hlow : ∀ u : String, skill_count_in_text u < 3 → fixSummary u = u := by
    intro u hu; unfold fixSummary; rw [if_neg (by omega)]
  rcases fixSummary_out s with h | h
  · rw [h]; exact h
  · exact hlow _ h

/-- Records with equal fields are equal. -/
theorem resumeRecord_ext {x y : ResumeRecord} (h1 : x.name = y.name)
    (h2 : x.contact = y.contact) (h3 : x.summary = y.summary)
    (h4 : x.experience = y.experience) (h5 : x.education = y.education)
    (h6 : x.certifications = y.certifications) (h7 : x.skills = y.skills) :
    x = y := by
  cases x; cases y
  simp only [ResumeRecord.mk.injEq]
  exact ⟨h1, h2, h3, h4, h5, h6, h7⟩

/-- The summary field of the validator's output. -/
theorem validate_summary (d : ResumeRecord) :
    (validate_and_clean_data d).summary =
      if d.summary = "" then d.summary else fixSummary d.summary := rfl

/-- The experience field of the validator's output. -/
theorem validate_experience (d : ResumeRecord) :
    (validate_and_clean_data d).experience =
      if d.experience.isEmpty then d.experience
      else dedupExpAux [] d.experience := rfl

/-- The education field of the validator's output. -/
theorem validate_education (d : ResumeRecord) :
    (validate_and_clean_data d).education =
      if d.education.isEmpty then d.education
      else dedupEduAux [] d.education := rfl

/-- The skills field of the validator's output. -/
theorem validate_skills (d : ResumeRecord) :
    (validate_and_clean_data d).skills =
      match d.skills with
      | .items l => if l.isEmpty then d.skills else .str (joinSep ", " l)
      | .str _ => d.skills := rfl

/-- Claim C4: the validator is idempotent — a second run of
`validate_and_clean_data` changes nothing: both dedup passes, the
summary sanity check and the skills join are fixed points after one
application. -/
theorem C4_validator_idempotent (d : ResumeRecord) :
    validate_and_clean_data (validate_and_clean_data d) = validate_and_clean_data d := by
  refine resumeRecord_ext rfl rfl ?_ ?_ ?_ rfl ?_
  · rw [validate_summary, validate_summary]
    by_cases h1 : d.summary = ""
    · simp [h1]
    · rw [if_neg h1]
      by_cases h2 : fixSummary d.summary = ""
      · simp [h2]
      · rw [if_neg h2, fixSummary_idem]
  · rw [validate_experience, validate_experience]
    cases hd : d.experience with
    | nil => rfl
    | cons a l =>
      simp only [List.isEmpty_cons, Bool.false_eq_true, if_false]
      cases hdd : dedupExpAux [] (a :: l) with
      | nil => simp
      | cons b m =>
        simp only [List.isEmpty_cons, Bool.false_eq_true, if_false]
        rw [← hdd]
        exact dedupKeyAux_idem _ _ _
  · rw [validate_education, validate_education]
    cases hd : d.education with
    | nil => rfl
    | cons a l =>
      simp only [List.isEmpty_cons, Bool.false_eq_true, if_false]
      cases hdd : dedupEduAux [] (a :: l) with
      | nil => simp
      | cons b m =>
        simp only [List.isEmpty_cons, Bool.false_eq_true, if_false]
        rw [← hdd]
        exact dedupKeyAux_idem _ _ _
  · rw [validate_skills, validate_skills]
    cases hs : d.skills with
    | str s => simp
    | items l =>
      by_cases hl : l.isEmpty = true
      · simp [hs, hl]
      · simp [hs, hl]

/-- The summary pattern loop only accepts cleaned zones longer than 50
characters. -/
theorem trySummary_some_len :
    ∀ (ps : List (List Char → Option (List Char))) (cs : List Char) (s : String),
      trySummary ps cs = some s → 50 < s.length := by
  intro ps
  induction ps with
  | nil => intro cs s h; simp [trySummary] at h
  | cons p ps ih =>
    intro cs s h
    unfold trySummary at h
    cases hp : p cs with
    | none => simp only [hp] at h; exact ih cs s h
    | some zone =>
      simp only [hp] at h
      by_cases hlen : (cleanSummaryZone zone).length > 50
      · rw [if_pos hlen] at h
        cases h
        exact hlen
      · rw [if_neg hlen] at h
        exact ih cs s h

/-- Claim C7 (amended): summary-zone cleanup accepts exactly the cleaned
results longer than 50 characters; a cleaned result of exactly 50
characters is rejected — so every parsed record's summary is either
empty or longer than 50 characters. -/
theorem C7_amended (t : String) :
    (simple_parse_resume t).summary = "" ∨
      50 < (simple_parse_resume t).summary.length := by
  have hs : (simple_parse_resume t).summary
      = (trySummary summaryPatterns t.data).getD "" := rfl
  rw [hs]
  cases h : trySummary summaryPatterns t.data with
  | none => left; rfl
  | some s => right; simpa using trySummary_some_len _ _ _ h

/-- The degree-line dash fallback never sets the year. -/
theorem eduDashCase_year (l : String) : (eduDashCase l).year = "" := by
  unfold eduDashCase
  split
  · split <;> rfl
  · rfl

/-- Every entry emitted by the education loop has an empty year. -/
theorem parseEduAux_year :
    ∀ (n : Nat) (ls : List String),
      (parseEduAux n ls).all (fun e => e.year == "") = true := by
  intro n
  induction n with
  | zero => intro ls; cases ls <;> rfl
  | succ n ih =>
    intro ls
    cases ls with
    | nil => rfl
    | cons l rest =>
      simp only [parseEduAux]
      by_cases h1 : eduCertSkip l = true
      · simp only [h1, if_true]; exact ih rest
      · simp only [h1, Bool.false_eq_true, if_false]
        by_cases h2 : schoolKw l = true
        · simp only [h2, if_true]
          cases rest with
          | nil => simp [List.all_cons, ih]
          | cons nx r2 =>
            by_cases h3 : degreeKwNext nx = true
            · simp [h3, List.all_cons, ih]
            · simp [h3, List.all_cons, ih]
        · simp only [h2, Bool.false_eq_true, if_false]
          by_cases h4 : degreeKwLine l = true
          · simp only [h4, if_true]
            cases rest with
            | nil => simp [List.all_cons, ih, eduDashCase_year]
            | cons nx r2 =>
              by_cases h5 : instKwNext nx = true
              · simp [h5, List.all_cons, ih]
              · simp [h5, List.all_cons, ih, eduDashCase_year]
          · simp only [h4, Bool.false_eq_true, if_false]; exact ih rest

/-- Claim C8: every EducationEntry of the parsed record has an empty
year, for every input text — no heuristic-path operation populates the
year field. -/
theorem C8_year_empty (t : String) :
    (simple_parse_resume t).education.all (fun e => e.year == "") = true := by
  have he : (simple_parse_resume t).education = educationOf t := rfl
  rw [he]
  unfold educationOf
  cases h : firstZone eduPatterns t.data with
  | none => rfl
  | some z => exact parseEduAux_year _ _

/-- A certification list produced by the pattern loop has at most ten
entries. -/
theorem tryCerts_le :
    ∀ (ps : List (List Char → Option (List Char))) (cs : List Char)
      (r : List String), tryCerts ps cs = some r → r.length ≤ 10 := by
  intro ps
  induction ps with
  | nil => intro cs r h; simp [tryCerts] at h
  | cons p ps ih =>
    intro cs r h
    unfold tryCerts at h
    cases hp : p cs with
    | none => simp only [hp] at h; exact ih cs r h
    | some zone =>
      simp only [hp] at h
      by_cases he : (certsFromZone zone).isEmpty = true
      · rw [if_pos he] at h; exact ih cs r h
      · rw [if_neg he] at h
        cases h
        calc ((certsFromZone zone).take 10).length
            = min 10 (certsFromZone zone).length := List.length_take 10 _
          _ ≤ 10 := min_le_left _ _

/-- Claim C9: the certifications list of the parsed record never exceeds
ten entries — the parser truncates the qualifying lines to the first
ten. -/
theorem C9_certifications_le_ten (t : String) :
    (simple_parse_resume t).certifications.length ≤ 10 := by
  have hc : (simple_parse_resume t).certifications
      = (tryCerts certPatterns t.data).getD [] := rfl
  rw [hc]
  cases h : tryCerts certPatterns t.data with
  | none => simp
  | some r => simpa using tryCerts_le _ _ _ h

/-- The email written by one contact step. -/
theorem contactStep_email (acc : ContactInfo) (l : String) :
    (contactStep acc l).email = (emailFind l).getD acc.email := by
  unfold contactStep
  cases emailFind l <;> cases phoneFind l <;> rfl

/-- The phone written by one contact step. -/
theorem contactStep_phone (acc : ContactInfo) (l : String) :
    (contactStep acc l).phone = (phoneFind l).getD acc.phone := by
  unfold contactStep
  cases emailFind l <;> cases phoneFind l <;> rfl

/-- The contact fold keeps the last email match. -/
theorem foldl_contact_email :
    ∀ (ls : List String) (acc : ContactInfo),
      (ls.foldl contactStep acc).email = (ls.filterMap emailFind).getLastD acc.email := by
  intro ls
  induction ls with
  | nil => intro acc; rfl
  | cons l ls ih =>
    intro acc
    rw [List.foldl_cons, ih]
    cases h : emailFind l with
    | none =>
      rw [List.filterMap_cons_none h, contactStep_email, h]
      rfl
    | some m =>
      rw [List.filterMap_cons_some h, contactStep_email, h,
        List.getLastD_cons]
      rfl

/-- The contact fold keeps the last phone match. -/
theorem foldl_contact_phone :
    ∀ (ls : List String) (acc : ContactInfo),
      (ls.foldl contactStep acc).phone = (ls.filterMap phoneFind).getLastD acc.phone := by
  intro ls
  induction ls with
  | nil => intro acc; rfl
  | cons l ls ih =>
    intro acc
    rw [List.foldl_cons, ih]
    cases h : phoneFind l with
    | none =>
      rw [List.filterMap_cons_none h, contactStep_phone, h]
      rfl
    | some m =>
      rw [List.filterMap_cons_some h, contactStep_phone, h,
        List.getLastD_cons]
      rfl

/-- Claim C10: contact extraction scans only the first 30 lines and
keeps the last match — the record's email (resp. phone) is the match of
the last matching line among the first thirty, and matches after line 30
are never extracted. -/
theorem C10_contact_window (t : String) :
    (simple_parse_resume t).contact.email
        = (((pySplit '\n' t).take 30).filterMap emailFind).getLastD "" ∧
    (simple_parse_resume t).contact.phone
        = (((pySplit '\n' t).take 30).filterMap phoneFind).getLastD "" := by
  have h : (simple_parse_resume t).contact
      = ((pySplit '\n' t).take 30).foldl contactStep ⟨"", "", ""⟩ := rfl
  rw [h]
  exact ⟨foldl_contact_email _ _, foldl_contact_phone _ _⟩

end Talnt
